import Mathlib

/-!
Verification of the Cass-Game-Tracker segmentation core.

The definitions below are a shallow embedding of `backend/src/segments.ts`
and of the `handleNotification` / `reconcileStreamState` functions of the
service entry file, over the schema of `backend/migrations/001_init.sql`.
Instants are modelled as integer milliseconds since the Unix epoch
(JS `Date.getTime()`), durations as integer seconds.
-/

namespace CassTracker

/-- Row of the `streams` table. -/
structure StreamRec where
  streamId : String
  broadcasterId : String
  broadcasterLogin : String
  startedAt : Int
  endedAt : Option Int
  endedReason : Option String
deriving DecidableEq, Repr

/-- Row of the `category_segments` table; `id` is the BIGSERIAL key. -/
structure SegmentRec where
  id : Nat
  streamId : String
  categoryId : Option String
  categoryName : String
  startedAt : Int
  endedAt : Option Int
  durationSeconds : Option Int
deriving DecidableEq, Repr

/-- Row of the `baseline_games` table (`total_hours NUMERIC` is modelled at
integer values, `last_seen_date` as an instant). -/
structure BaselineRec where
  insertedAt : Int
  gameName : String
  totalHours : Option Int
  lastSeenDate : Option Int
deriving DecidableEq, Repr

/-- The database state touched by the segmentation logic: the tables in
insertion order, plus the next BIGSERIAL value for `category_segments.id`. -/
structure Store where
  streams : List StreamRec
  segments : List SegmentRec
  nextSegId : Nat
  baselines : List BaselineRec
deriving DecidableEq, Repr

def emptyStore : Store := ⟨[], [], 0, []⟩

/-- Rows satisfying `p`, in table order (SQL `WHERE`). -/
def filterP {α : Type} (p : α → Prop) [DecidablePred p] : List α → List α
  | [] => []
  | x :: xs => if p x then x :: filterP p xs else filterP p xs

/-- First row attaining the maximal value of `f` (SQL `ORDER BY f DESC LIMIT 1`). -/
def latestBy {α : Type} (f : α → Int) : List α → Option α
  | [] => none
  | x :: xs =>
    match latestBy f xs with
    | none => some x
    | some y => if f x < f y then some y else some x

/-- `getActiveStream` in `segments.ts`: the most recently started stream row of
the broadcaster with `ended_at IS NULL`. -/
def getActiveStream (s : Store) (b : String) : Option StreamRec :=
  latestBy (fun r => r.startedAt)
    (filterP (fun r => r.broadcasterId = b ∧ r.endedAt = none) s.streams)

/-- `upsertStreamOnline` in `segments.ts`: insert the stream row; on a
`stream_id` conflict update the broadcaster columns and set
`started_at = LEAST(old, new)`. -/
def upsertStreamOnline (s : Store) (sid b login : String) (startedAt : Int) : Store :=
  if ∃ r ∈ s.streams, r.streamId = sid then
    { s with streams := s.streams.map (fun r =>
        if r.streamId = sid then
          { r with broadcasterId := b, broadcasterLogin := login,
                   startedAt := min r.startedAt startedAt }
        else r) }
  else
    { s with streams := s.streams ++ [⟨sid, b, login, startedAt, none, none⟩] }

/-- `markStreamOffline` in `segments.ts`: set `ended_at` and `ended_reason` on
the row keyed by `stream_id`. -/
def markStreamOffline (s : Store) (sid : String) (endedAt : Int) (reason : String) : Store :=
  { s with streams := s.streams.map (fun r =>
      if r.streamId = sid then
        { r with endedAt := some endedAt, endedReason := some reason }
      else r) }

/-- `getOpenSegment` in `segments.ts`: the most recently started segment of the
stream with `ended_at IS NULL`. -/
def getOpenSegment (s : Store) (sid : String) : Option SegmentRec :=
  latestBy (fun g => g.startedAt)
    (filterP (fun g => g.streamId = sid ∧ g.endedAt = none) s.segments)

/-- `startSegment` in `segments.ts`: insert a segment row,
`ON CONFLICT (stream_id, started_at, category_name) DO NOTHING`. -/
def startSegment (s : Store) (sid : String) (catId : Option String) (catName : String)
    (startedAt : Int) : Store :=
  if ∃ g ∈ s.segments, g.streamId = sid ∧ g.startedAt = startedAt ∧ g.categoryName = catName then
    s
  else
    { s with
      segments := s.segments ++ [⟨s.nextSegId, sid, catId, catName, startedAt, none, none⟩],
      nextSegId := s.nextSegId + 1 }

/-- `closeOpenSegment` in `segments.ts`: close the open segment at `endedAt`
with `duration_seconds = Math.max(0, Math.floor((endedAt - startedAt) / 1000))`;
no-op when the stream has no open segment. -/
def closeOpenSegment (s : Store) (sid : String) (endedAt : Int) : Store :=
  match getOpenSegment s sid with
  | none => s
  | some og =>
    let dur : Int := max 0 ((endedAt - og.startedAt).fdiv 1000)
    { s with segments := s.segments.map (fun g =>
        if g.id = og.id then { g with endedAt := some endedAt, durationSeconds := some dur }
        else g) }

/-- `rotateSegment` in `segments.ts`: no-op when the open segment already has
the requested category (same `category_name` and same `category_id`), otherwise
close the open segment at `t` and start a new one at `t`. -/
def rotateSegment (s : Store) (sid : String) (catId : Option String) (catName : String)
    (t : Int) : Store :=
  match getOpenSegment s sid with
  | some og =>
    if og.categoryName = catName ∧ og.categoryId = catId then s
    else startSegment (closeOpenSegment s sid t) sid catId catName t
  | none => startSegment (closeOpenSegment s sid t) sid catId catName t

/-- JS truthiness on an optional string field: absent and empty are both falsy. -/
def nonEmptyStr : Option String → Option String
  | none => none
  | some s => if s = "" then none else some s

/-- The `stream.online` branch of `handleNotification`: upsert the stream row,
then open the first segment with the category reported for the live stream
(`getLiveStreamGame` already substitutes the "Unknown" sentinel). -/
def onWentLive (s : Store) (b login sid : String) (t : Int) (catId : Option String)
    (catName : String) : Store :=
  startSegment (upsertStreamOnline s sid b login t) sid catId catName t

/-- The `channel.update` branch of `handleNotification`: dropped when the
broadcaster has no active stream, else the active stream's segment is rotated;
an absent or empty category name falls back to the "Unknown" sentinel, an
absent or empty category id to NULL. -/
def onCategoryChanged (s : Store) (b : String) (catId : Option String)
    (catName : Option String) (t : Int) : Store :=
  match getActiveStream s b with
  | none => s
  | some act =>
    rotateSegment s act.streamId (nonEmptyStr catId) ((nonEmptyStr catName).getD "Unknown") t

/-- The `stream.offline` branch of `handleNotification`: dropped when the
broadcaster has no active stream, else the open segment is closed at `t` and
the stream marked offline. The service passes the reason string
"offline_event" (the spec's `event-notified` label). -/
def onWentOffline (s : Store) (b : String) (t : Int) (reason : String) : Store :=
  match getActiveStream s b with
  | none => s
  | some act => markStreamOffline (closeOpenSegment s act.streamId t) act.streamId t reason

/-- `reconcileStreamState` in the service entry file: when upstream reports the
broadcaster live and no local active stream exists, synthesize the online path
at the upstream start (or `now`); when upstream reports not live but a local
active stream exists, close it at `now` with the reason string
"recovered_offline" (the spec's `recovered-by-reconciliation` label). -/
def reconcile (s : Store) (b login : String) (upstreamIsLive : Bool)
    (upstreamId : Option String) (upstreamStartedAt : Option Int)
    (upstreamGameId upstreamGameName : Option String) (now : Int) : Store :=
  match upstreamIsLive, getActiveStream s b with
  | true, none =>
    let sid := upstreamId.getD ("bootstrap_" ++ toString now)
    let st := upstreamStartedAt.getD now
    startSegment (upsertStreamOnline s sid b login st) sid (nonEmptyStr upstreamGameId)
      ((nonEmptyStr upstreamGameName).getD "Unknown") st
  | false, some act =>
    markStreamOffline (closeOpenSegment s act.streamId now) act.streamId now "recovered_offline"
  | _, _ => s

/-- Lower-casing used for the case-insensitive keys (SQL `lower(...)`),
computed on the character list (same result as `String.toLower`). -/
def lowerName (s : String) : String := String.mk (s.data.map Char.toLower)

/-- Append a key unless already present (first occurrence wins). -/
def insertKey {α : Type} [DecidableEq α] (ks : List α) (k : α) : List α :=
  if k ∈ ks then ks else ks ++ [k]

/-- GROUP BY keys `(lower(category_name), category_name)` of the `seg` CTE of
`getGlobalGameTotals`, over segments with a recorded duration. -/
def segKeys (gs : List SegmentRec) : List (String × String) :=
  gs.foldl (fun acc g =>
    match g.durationSeconds with
    | none => acc
    | some _ => insertKey acc (lowerName g.categoryName, g.categoryName)) []

/-- `SUM(duration_seconds)` of the group of segments named exactly `name`. -/
def segTotal (gs : List SegmentRec) (name : String) : Int :=
  (gs.filterMap (fun g => if g.categoryName = name then g.durationSeconds else none)).sum

/-- Maximum of two nullable values, ignoring NULLs as SQL `MAX` does. -/
def optMax : Option Int → Option Int → Option Int
  | none, y => y
  | some x, none => some x
  | some x, some y => some (max x y)

/-- `MAX(ended_at)` over the group of segments named exactly `name` that have a
recorded duration. -/
def segLastSeen (gs : List SegmentRec) (name : String) : Option Int :=
  gs.foldl (fun acc g =>
    if g.categoryName = name ∧ g.durationSeconds ≠ none then optMax acc g.endedAt else acc) none

/-- The `baseline` CTE row for key `k`: `DISTINCT ON (lower(game_name))`
ordered by `inserted_at DESC`, i.e. the latest baseline row per key. -/
def baselineFor (bls : List BaselineRec) (k : String) : Option BaselineRec :=
  latestBy (fun r => r.insertedAt) (filterP (fun r => lowerName r.gameName = k) bls)

/-- The distinct `lower(game_name)` keys of the baseline table. -/
def baselineKeys (bls : List BaselineRec) : List String :=
  bls.foldl (fun acc r => insertKey acc (lowerName r.gameName)) []

/-- One output row of `getGlobalGameTotals`. -/
structure AggRow where
  game : String
  totalSeconds : Int
  lastSeen : Int
deriving DecidableEq, Repr

/-- The `merged` CTE: segment groups FULL OUTER JOINed with the latest baseline
row on the lower-cased key, baseline hours converted to seconds and added;
`GREATEST` of the last-seen instants with the epoch as NULL fallback. -/
def mergedRows (s : Store) : List AggRow :=
  let segRows := (segKeys s.segments).map (fun kn =>
    let base := baselineFor s.baselines kn.1
    { game := kn.2
      totalSeconds := segTotal s.segments kn.2 + ((base.bind (fun r => r.totalHours)).getD 0) * 3600
      lastSeen := max ((segLastSeen s.segments kn.2).getD 0)
        ((base.bind (fun r => r.lastSeenDate)).getD 0) : AggRow })
  let baseRows := (baselineKeys s.baselines).filterMap (fun k =>
    if ∃ kn ∈ segKeys s.segments, kn.1 = k then none
    else (baselineFor s.baselines k).map (fun r =>
      { game := r.gameName
        totalSeconds := (r.totalHours.getD 0) * 3600
        lastSeen := max 0 (r.lastSeenDate.getD 0) : AggRow }))
  segRows ++ baseRows

/-- Strict "comes before" order of the final `ORDER BY total_seconds DESC,
game ASC` (game names compared lexicographically on their character lists). -/
def aggBefore (a b : AggRow) : Prop :=
  b.totalSeconds < a.totalSeconds
  ∨ (a.totalSeconds = b.totalSeconds ∧ List.lt a.game.data b.game.data)

instance (a b : AggRow) : Decidable (aggBefore a b) :=
  have _hlt : Decidable (List.lt a.game.data b.game.data) :=
    List.hasDecidableLt a.game.data b.game.data
  inferInstanceAs (Decidable (b.totalSeconds < a.totalSeconds
    ∨ (a.totalSeconds = b.totalSeconds ∧ List.lt a.game.data b.game.data)))

def insertAggRow (x : AggRow) : List AggRow → List AggRow
  | [] => [x]
  | y :: ys => if aggBefore x y then x :: y :: ys else y :: insertAggRow x ys

def sortAggRows (rs : List AggRow) : List AggRow := rs.foldr insertAggRow []

/-- `getGlobalGameTotals` in `segments.ts`: the merged rows ordered by total
duration descending, then game name ascending. -/
def getGlobalGameTotals (s : Store) : List AggRow := sortAggRows (mergedRows s)

/-- The streams of broadcaster `b` with `ended_at IS NULL` (the spec's "active
sessions"). -/
def activeSessions (s : Store) (b : String) : List StreamRec :=
  filterP (fun r => r.broadcasterId = b ∧ r.endedAt = none) s.streams

/-- The segments of stream `sid`, in insertion order. -/
def segmentsOf (s : Store) (sid : String) : List SegmentRec :=
  filterP (fun g => g.streamId = sid) s.segments

/-- The open segments of stream `sid`, in insertion order. -/
def openSegmentsOf (s : Store) (sid : String) : List SegmentRec :=
  filterP (fun g => g.streamId = sid ∧ g.endedAt = none) s.segments

/-- Sum of the recorded `duration_seconds` of a segment list. -/
def sumDur (L : List SegmentRec) : Int :=
  (L.filterMap (fun g => g.durationSeconds)).sum

/-- Consecutive segments meet exactly: each one ends where the next starts. -/
def contiguousSegs (L : List SegmentRec) : Prop :=
  L.Chain' (fun a b => a.endedAt = some b.startedAt)

/-- The list is ordered by `startedAt`. -/
def orderedByStart (L : List SegmentRec) : Prop :=
  L.Pairwise (fun a b => a.startedAt ≤ b.startedAt)

/-- A closed segment never reaches past the start of a later segment. -/
def endsBefore (a b : SegmentRec) : Prop :=
  a.endedAt.getD b.startedAt ≤ b.startedAt

instance (a b : SegmentRec) : Decidable (endsBefore a b) :=
  inferInstanceAs (Decidable (a.endedAt.getD b.startedAt ≤ b.startedAt))

/-- Pairwise non-overlap of the closed segments in the list. -/
def noOverlap (L : List SegmentRec) : Prop :=
  L.Pairwise endsBefore

/-- Fold a list of `channel.update` events `(category_id?, category_name?, at)`
into the store through `onCategoryChanged`. -/
def applyChanges (s : Store) (b : String) :
    List (Option String × Option String × Int) → Store
  | [] => s
  | e :: evs => applyChanges (onCategoryChanged s b e.1 e.2.1 e.2.2) b evs

/-- A run of closed segments produced by the engine: starting at `t`, each
segment starts where the previous one ended, carries the duration the code
stores for it, and all boundaries are whole seconds; `tEnd` is where the run
ends. -/
def chainFrom (t : Int) : List SegmentRec → Int → Prop
  | [], tEnd => tEnd = t
  | g :: gs, tEnd =>
    g.startedAt = t ∧ 1000 ∣ t ∧
    match g.endedAt with
    | some e => t ≤ e ∧ 1000 ∣ e ∧ g.durationSeconds = some ((e - t).fdiv 1000) ∧
        chainFrom e gs tEnd
    | none => False

/-- The closed copy of an open segment, as `closeOpenSegment` writes it. -/
def closedAt (og : SegmentRec) (t : Int) : SegmentRec :=
  { og with endedAt := some t
            durationSeconds := some (max 0 ((t - og.startedAt).fdiv 1000)) }

/-- The per-row update `closeOpenSegment` performs (touches only the row whose
`id` matches the open segment's). -/
def closeUpd (og : SegmentRec) (t : Int) (g : SegmentRec) : SegmentRec :=
  if g.id = og.id then
    { g with endedAt := some t
             durationSeconds := some (max 0 ((t - og.startedAt).fdiv 1000)) }
  else g

/-- Invariant threaded through a run of `onCategoryChanged` calls: the
broadcaster's active stream is `act`, segment ids are fresh and unique, and the
segments of `act.streamId` are a contiguous strictly-ordered run whose single
open segment started no later than `tcur`. -/
structure EngineInv (s : Store) (b : String) (act : StreamRec) (tcur : Int) : Prop where
  hact : getActiveStream s b = some act
  idsBound : ∀ g ∈ s.segments, g.id < s.nextSegId
  idsNodup : s.segments.Pairwise (fun a b => a.id ≠ b.id)
  shape : ∃ pre og, segmentsOf s act.streamId = pre ++ [og] ∧ og.endedAt = none ∧
      (∀ g ∈ pre, g.endedAt ≠ none) ∧
      contiguousSegs (pre ++ [og]) ∧
      (pre ++ [og]).Pairwise (fun a b => a.startedAt < b.startedAt) ∧
      og.startedAt ≤ tcur

theorem mem_filterP {α : Type} {p : α → Prop} [DecidablePred p] {l : List α} {x : α} :
    x ∈ filterP p l ↔ x ∈ l ∧ p x := by
  induction l with
  | nil => simp [filterP]
  | cons y ys ih =>
    by_cases h : p y
    · simp only [filterP, if_pos h, List.mem_cons, ih]
      constructor
      · rintro (rfl | ⟨hx, hp⟩)
        · exact ⟨Or.inl rfl, h⟩
        · exact ⟨Or.inr hx, hp⟩
      · rintro ⟨rfl | hx, hp⟩
        · exact Or.inl rfl
        · exact Or.inr ⟨hx, hp⟩
    · simp only [filterP, if_neg h, ih, List.mem_cons]
      constructor
      · rintro ⟨hx, hp⟩
        exact ⟨Or.inr hx, hp⟩
      · rintro ⟨rfl | hx, hp⟩
        · exact absurd hp h
        · exact ⟨hx, hp⟩

theorem filterP_append {α : Type} (p : α → Prop) [DecidablePred p] (l₁ l₂ : List α) :
    filterP p (l₁ ++ l₂) = filterP p l₁ ++ filterP p l₂ := by
  induction l₁ with
  | nil => simp [filterP]
  | cons x xs ih => by_cases h : p x <;> simp [filterP, h, ih]

theorem filterP_eq_nil {α : Type} {p : α → Prop} [DecidablePred p] {l : List α}
    (h : ∀ x ∈ l, ¬ p x) : filterP p l = [] := by
  induction l with
  | nil => rfl
  | cons x xs ih =>
    rw [show filterP p (x :: xs) = if p x then x :: filterP p xs else filterP p xs from rfl,
      if_neg (h x (List.mem_cons_self x xs))]
    exact ih fun y hy => h y (List.mem_cons_of_mem _ hy)

theorem filterP_map {α : Type} (p : α → Prop) [DecidablePred p] (f : α → α)
    (hf : ∀ x, p (f x) ↔ p x) (l : List α) :
    filterP p (l.map f) = (filterP p l).map f := by
  induction l with
  | nil => rfl
  | cons x xs ih =>
    by_cases h : p x
    · simp only [List.map_cons, filterP, if_pos ((hf x).mpr h), if_pos h, ih]
    · simp only [List.map_cons, filterP, if_neg (fun hc => h ((hf x).mp hc)), if_neg h, ih]

theorem filterP_sublist {α : Type} (p : α → Prop) [DecidablePred p] (l : List α) :
    List.Sublist (filterP p l) l := by
  induction l with
  | nil => simp [filterP]
  | cons x xs ih =>
    by_cases h : p x
    · simpa [filterP, h] using ih.cons₂ x
    · simpa [filterP, h] using ih.cons x

theorem filterP_and {α : Type} (p q : α → Prop) [DecidablePred p] [DecidablePred q]
    (l : List α) :
    filterP (fun x => p x ∧ q x) l = filterP q (filterP p l) := by
  induction l with
  | nil => rfl
  | cons x xs ih => by_cases hp : p x <;> by_cases hq : q x <;>
    simp [filterP, hp, hq, ih]

theorem latestBy_mem {α : Type} {f : α → Int} {l : List α} {x : α}
    (h : latestBy f l = some x) : x ∈ l := by
  induction l with
  | nil => simp [latestBy] at h
  | cons y ys ih =>
    rw [latestBy] at h
    split at h
    · simp only [Option.some.injEq] at h
      simp [h]
    · next z hm =>
      split at h
      · simp only [Option.some.injEq] at h
        exact List.mem_cons_of_mem _ (ih (h ▸ hm))
      · simp only [Option.some.injEq] at h
        simp [h]

theorem latestBy_eq_none {α : Type} {f : α → Int} {l : List α} :
    latestBy f l = none ↔ l = [] := by
  cases l with
  | nil => simp [latestBy]
  | cons y ys =>
    simp only [latestBy]
    cases latestBy f ys with
    | none => simp
    | some z => by_cases hlt : f y < f z <;> simp [hlt]

theorem getOpenSegment_of_shape (s : Store) (sid : String) (pre : List SegmentRec)
    (og : SegmentRec) (hseg : segmentsOf s sid = pre ++ [og]) (hopen : og.endedAt = none)
    (hclosed : ∀ g ∈ pre, g.endedAt ≠ none) :
    getOpenSegment s sid = some og := by
  unfold getOpenSegment
  rw [filterP_and (fun g => g.streamId = sid) (fun g => g.endedAt = none) s.segments]
  rw [show filterP (fun g : SegmentRec => g.streamId = sid) s.segments = segmentsOf s sid
    from rfl, hseg, filterP_append,
    filterP_eq_nil (fun g hg hn => hclosed g hg hn)]
  simp [filterP, hopen, latestBy]

theorem getOpenSegment_spec {s : Store} {sid : String} {og : SegmentRec}
    (h : getOpenSegment s sid = some og) :
    og ∈ s.segments ∧ og.streamId = sid ∧ og.endedAt = none := by
  unfold getOpenSegment at h
  have hm := latestBy_mem h
  rw [mem_filterP] at hm
  exact ⟨hm.1, hm.2.1, hm.2.2⟩

theorem startSegment_streams (s : Store) (sid : String) (cid : Option String)
    (cn : String) (t : Int) : (startSegment s sid cid cn t).streams = s.streams := by
  unfold startSegment; split <;> rfl

theorem closeOpenSegment_streams (s : Store) (sid : String) (t : Int) :
    (closeOpenSegment s sid t).streams = s.streams := by
  unfold closeOpenSegment; split <;> rfl

theorem closeOpenSegment_nextSegId (s : Store) (sid : String) (t : Int) :
    (closeOpenSegment s sid t).nextSegId = s.nextSegId := by
  unfold closeOpenSegment; split <;> rfl

theorem rotateSegment_streams (s : Store) (sid : String) (cid : Option String)
    (cn : String) (t : Int) : (rotateSegment s sid cid cn t).streams = s.streams := by
  unfold rotateSegment
  split
  · split
    · rfl
    · rw [startSegment_streams, closeOpenSegment_streams]
  · rw [startSegment_streams, closeOpenSegment_streams]

theorem markStreamOffline_segments (s : Store) (sid : String) (e : Int) (r : String) :
    (markStreamOffline s sid e r).segments = s.segments := rfl

theorem getActiveStream_congr {s s' : Store} (h : s'.streams = s.streams) (b : String) :
    getActiveStream s' b = getActiveStream s b := by
  unfold getActiveStream; rw [h]

theorem activeSessions_eq_nil {s : Store} {b : String} (h : getActiveStream s b = none) :
    activeSessions s b = [] := by
  unfold getActiveStream at h
  exact latestBy_eq_none.mp h

theorem noOverlap_of_chain_sorted {L : List SegmentRec}
    (hc : contiguousSegs L) (hs : L.Pairwise fun a b => a.startedAt < b.startedAt) :
    noOverlap L := by
  unfold noOverlap
  induction L with
  | nil => exact List.Pairwise.nil
  | cons x xs ih =>
    have hs' := (List.pairwise_cons.mp hs).2
    cases xs with
    | nil => simp [endsBefore]
    | cons y ys =>
      have hxy : x.endedAt = some y.startedAt := (List.chain'_cons.mp hc).1
      refine List.Pairwise.cons ?_ (ih (List.chain'_cons.mp hc).2 hs')
      intro g hg
      unfold endsBefore
      rw [hxy]
      simp only [Option.getD_some]
      rcases List.mem_cons.mp hg with rfl | hgys
      · exact le_refl _
      · exact le_of_lt ((List.pairwise_cons.mp hs').1 g hgys)

theorem closeUpd_id (og : SegmentRec) (t : Int) (g : SegmentRec) :
    (closeUpd og t g).id = g.id := by
  unfold closeUpd; split <;> rfl

theorem closeUpd_streamId (og : SegmentRec) (t : Int) (g : SegmentRec) :
    (closeUpd og t g).streamId = g.streamId := by
  unfold closeUpd; split <;> rfl

theorem closeUpd_startedAt (og : SegmentRec) (t : Int) (g : SegmentRec) :
    (closeUpd og t g).startedAt = g.startedAt := by
  unfold closeUpd; split <;> rfl

theorem closeOpenSegment_shape (s : Store) (sid : String) (pre : List SegmentRec)
    (og : SegmentRec) (t : Int)
    (hseg : segmentsOf s sid = pre ++ [og]) (hopen : og.endedAt = none)
    (hclosed : ∀ g ∈ pre, g.endedAt ≠ none)
    (hids : s.segments.Pairwise fun a b => a.id ≠ b.id) :
    (closeOpenSegment s sid t).segments = s.segments.map (closeUpd og t)
    ∧ segmentsOf (closeOpenSegment s sid t) sid = pre ++ [closedAt og t] := by
  have hog := getOpenSegment_of_shape s sid pre og hseg hopen hclosed
  have hmap : (closeOpenSegment s sid t).segments = s.segments.map (closeUpd og t) := by
    unfold closeOpenSegment
    rw [hog]
    rfl
  refine ⟨hmap, ?_⟩
  have hpairOf : (segmentsOf s sid).Pairwise fun a b => a.id ≠ b.id :=
    List.Pairwise.sublist (filterP_sublist _ _) hids
  rw [hseg] at hpairOf
  have hne : ∀ g ∈ pre, g.id ≠ og.id := fun g hg =>
    (List.pairwise_append.mp hpairOf).2.2 g hg og (List.mem_singleton_self og)
  show filterP _ (closeOpenSegment s sid t).segments = _
  rw [hmap, filterP_map _ (closeUpd og t) (fun g => by rw [closeUpd_streamId])]
  rw [show filterP (fun g : SegmentRec => g.streamId = sid) s.segments = segmentsOf s sid
    from rfl, hseg, List.map_append]
  congr 1
  · have heach : ∀ a ∈ pre, closeUpd og t a = a := fun a ha => by
      unfold closeUpd; rw [if_neg (hne a ha)]
    rw [List.map_congr_left heach, List.map_id']
  · simp [closeUpd, closedAt]

theorem engineInv_rotate (s : Store) (b : String) (act : StreamRec) (tcur t : Int)
    (cid : Option String) (cn : String) (inv : EngineInv s b act tcur) (ht : tcur < t) :
    EngineInv (rotateSegment s act.streamId cid cn t) b act t := by
  obtain ⟨pre, og, hseg, hopen, hclosed, hchain, hsorted, hle⟩ := inv.shape
  have hog := getOpenSegment_of_shape s act.streamId pre og hseg hopen hclosed
  have hrot : rotateSegment s act.streamId cid cn t
      = if og.categoryName = cn ∧ og.categoryId = cid then s
        else startSegment (closeOpenSegment s act.streamId t) act.streamId cid cn t := by
    unfold rotateSegment; rw [hog]
  rw [hrot]
  by_cases hsame : og.categoryName = cn ∧ og.categoryId = cid
  · rw [if_pos hsame]
    exact ⟨inv.hact, inv.idsBound, inv.idsNodup,
      pre, og, hseg, hopen, hclosed, hchain, hsorted, le_of_lt (lt_of_le_of_lt hle ht)⟩
  · rw [if_neg hsame]
    obtain ⟨hmap, hsegOf⟩ :=
      closeOpenSegment_shape s act.streamId pre og t hseg hopen hclosed inv.idsNodup
    have hbound : ∀ g ∈ pre ++ [og], g.startedAt ≤ og.startedAt := by
      intro g hg
      rcases List.mem_append.mp hg with hgp | hgo
      · exact le_of_lt
          ((List.pairwise_append.mp hsorted).2.2 g hgp og (List.mem_singleton_self og))
      · rw [List.mem_singleton.mp hgo]
    have hnoconf : ¬ ∃ g ∈ (closeOpenSegment s act.streamId t).segments,
        g.streamId = act.streamId ∧ g.startedAt = t ∧ g.categoryName = cn := by
      rintro ⟨g, hg, hsid, hst, -⟩
      have hgOf : g ∈ segmentsOf (closeOpenSegment s act.streamId t) act.streamId :=
        mem_filterP.mpr ⟨hg, hsid⟩
      rw [hsegOf] at hgOf
      have hbd : g.startedAt ≤ og.startedAt := by
        rcases List.mem_append.mp hgOf with hgp | hgo
        · exact le_of_lt
            ((List.pairwise_append.mp hsorted).2.2 g hgp og (List.mem_singleton_self og))
        · rw [List.mem_singleton.mp hgo]; exact le_refl _
      omega
    have hstart : startSegment (closeOpenSegment s act.streamId t) act.streamId cid cn t
        = { closeOpenSegment s act.streamId t with
            segments := (closeOpenSegment s act.streamId t).segments
              ++ [⟨(closeOpenSegment s act.streamId t).nextSegId, act.streamId, cid, cn,
                   t, none, none⟩],
            nextSegId := (closeOpenSegment s act.streamId t).nextSegId + 1 } := by
      unfold startSegment; rw [if_neg hnoconf]
    rw [hstart]
    refine ⟨?_, ?_, ?_, ?_⟩
    · exact (getActiveStream_congr (closeOpenSegment_streams s act.streamId t) b).trans
        inv.hact
    · intro g hg
      rcases List.mem_append.mp hg with hg₁ | hgn
      · rw [hmap] at hg₁
        obtain ⟨a, ha, rfl⟩ := List.mem_map.mp hg₁
        have hb := inv.idsBound a ha
        show (closeUpd og t a).id < (closeOpenSegment s act.streamId t).nextSegId + 1
        rw [closeUpd_id, closeOpenSegment_nextSegId]
        omega
      · rw [List.mem_singleton.mp hgn]
        exact Nat.lt_succ_self _
    · refine List.pairwise_append.mpr ⟨?_, List.pairwise_singleton _ _, ?_⟩
      · rw [hmap, List.pairwise_map]
        exact inv.idsNodup.imp fun {a c} h => by
          rw [closeUpd_id, closeUpd_id]; exact h
      · intro a ha c hc
        rw [List.mem_singleton.mp hc]
        rw [hmap] at ha
        obtain ⟨a₀, ha₀, rfl⟩ := List.mem_map.mp ha
        have hb := inv.idsBound a₀ ha₀
        show (closeUpd og t a₀).id ≠ (closeOpenSegment s act.streamId t).nextSegId
        rw [closeUpd_id, closeOpenSegment_nextSegId]
        omega
    · refine ⟨pre ++ [closedAt og t],
        ⟨(closeOpenSegment s act.streamId t).nextSegId, act.streamId, cid, cn, t,
          none, none⟩, ?_, rfl, ?_, ?_, ?_, le_refl t⟩
      · unfold segmentsOf
        rw [show ({ closeOpenSegment s act.streamId t with
            segments := (closeOpenSegment s act.streamId t).segments ++ _,
            nextSegId := _ } : Store).segments
          = (closeOpenSegment s act.streamId t).segments
            ++ [⟨(closeOpenSegment s act.streamId t).nextSegId, act.streamId, cid, cn,
                 t, none, none⟩] from rfl]
        rw [filterP_append]
        rw [show filterP (fun g : SegmentRec => g.streamId = act.streamId)
            (closeOpenSegment s act.streamId t).segments
          = segmentsOf (closeOpenSegment s act.streamId t) act.streamId from rfl, hsegOf]
        simp [filterP]
      · intro g hg
        rcases List.mem_append.mp hg with hgp | hgo
        · exact hclosed g hgp
        · rw [List.mem_singleton.mp hgo]
          simp [closedAt]
      · rcases List.chain'_append.mp hchain with ⟨hcp, -, hlink⟩
        refine List.chain'_append.mpr
          ⟨List.chain'_append.mpr ⟨hcp, List.chain'_singleton _, ?_⟩,
           List.chain'_singleton _, ?_⟩
        · intro x hx y hy
          simp only [List.head?_cons, Option.mem_def, Option.some.injEq] at hy
          subst hy
          exact hlink x hx og (by simp)
        · intro x hx y hy
          rw [List.getLast?_concat] at hx
          simp only [List.head?_cons, Option.mem_def, Option.some.injEq] at hx hy
          subst hx
          subst hy
          rfl
      · refine List.pairwise_append.mpr ⟨?_, List.pairwise_singleton _ _, ?_⟩
        · rcases List.pairwise_append.mp hsorted with ⟨hsp, -, hcross⟩
          refine List.pairwise_append.mpr ⟨hsp, List.pairwise_singleton _ _, ?_⟩
          intro a ha c hc
          rw [List.mem_singleton.mp hc]
          exact hcross a ha og (List.mem_singleton_self og)
        · intro a ha c hc
          rw [List.mem_singleton.mp hc]
          have hba : a.startedAt ≤ og.startedAt := by
            rcases List.mem_append.mp ha with hgp | hgo
            · exact le_of_lt
                ((List.pairwise_append.mp hsorted).2.2 a hgp og (List.mem_singleton_self og))
            · rw [List.mem_singleton.mp hgo]; exact le_refl _
          show a.startedAt < t
          omega

theorem engineInv_applyChanges (b : String) (act : StreamRec)
    (evs : List (Option String × Option String × Int)) :
    ∀ (s : Store) (tcur : Int), EngineInv s b act tcur →
      List.Chain (fun x y => x < y) tcur (evs.map fun e => e.2.2) →
      ∃ tfin, EngineInv (applyChanges s b evs) b act tfin := by
  induction evs with
  | nil => exact fun s tcur inv _ => ⟨tcur, inv⟩
  | cons e evs ih =>
    intro s tcur inv hch
    rw [show applyChanges s b (e :: evs)
      = applyChanges (onCategoryChanged s b e.1 e.2.1 e.2.2) b evs from rfl]
    rw [List.map_cons] at hch
    rcases List.chain_cons.mp hch with ⟨hlt, htail⟩
    have heq : onCategoryChanged s b e.1 e.2.1 e.2.2
        = rotateSegment s act.streamId (nonEmptyStr e.1)
            ((nonEmptyStr e.2.1).getD "Unknown") e.2.2 := by
      unfold onCategoryChanged; rw [inv.hact]
    rw [heq]
    exact ih _ _ (engineInv_rotate s b act tcur e.2.2 _ _ inv hlt) htail

theorem engineInv_init (b login sid : String) (cid0 : Option String) (cn0 : String)
    (t0 : Int) :
    EngineInv (onWentLive emptyStore b login sid t0 cid0 cn0) b
      ⟨sid, b, login, t0, none, none⟩ t0 := by
  have hs0eq : onWentLive emptyStore b login sid t0 cid0 cn0
      = ⟨[⟨sid, b, login, t0, none, none⟩], [⟨0, sid, cid0, cn0, t0, none, none⟩], 1, []⟩ := by
    simp [onWentLive, upsertStreamOnline, startSegment, emptyStore]
  rw [hs0eq]
  refine ⟨?_, ?_, ?_, [], ⟨0, sid, cid0, cn0, t0, none, none⟩, ?_, rfl, ?_, ?_, ?_,
    le_refl t0⟩
  · simp [getActiveStream, filterP, latestBy]
  · intro g hg
    simp only [List.mem_singleton] at hg
    subst hg
    exact Nat.lt_succ_self 0
  · exact List.pairwise_singleton _ _
  · simp [segmentsOf, filterP]
  · intro g hg
    simp at hg
  · simp [contiguousSegs]
  · exact List.pairwise_singleton _ _

theorem activeSessions_congr {s s' : Store} (h : s'.streams = s.streams) (b : String) :
    activeSessions s' b = activeSessions s b := by
  unfold activeSessions; rw [h]

/-- C1: the scenario `onWentLive(B, "s1", t0, "Chess")`,
`onCategoryChanged(B, "Poker", t0+600s)`, `onWentOffline(B, t0+1800s,
"event-notified")` applied to an empty store yields exactly two closed
segments — Chess with `durationSeconds = 600` and Poker with
`durationSeconds = 1200` — and the session has `endedAt = t0+1800s`. -/
theorem c1_scenario (t0 : Int) :
    onWentOffline
      (onCategoryChanged (onWentLive emptyStore "B" "blogin" "s1" t0 none "Chess")
        "B" none (some "Poker") (t0 + 600000))
      "B" (t0 + 1800000) "event-notified"
    = ⟨[⟨"s1", "B", "blogin", t0, some (t0 + 1800000), some "event-notified"⟩],
       [⟨0, "s1", none, "Chess", t0, some (t0 + 600000), some 600⟩,
        ⟨1, "s1", none, "Poker", t0 + 600000, some (t0 + 1800000), some 1200⟩],
       2, []⟩ := by
  have harith1 : max 0 ((t0 + 600000 - t0).fdiv 1000) = 600 := by
    have h : t0 + 600000 - t0 = 600000 := by ring
    rw [h]; decide
  have harith2 : max 0 ((t0 + 1800000 - (t0 + 600000)).fdiv 1000) = 1200 := by
    have h : t0 + 1800000 - (t0 + 600000) = 1200000 := by ring
    rw [h]; decide
  have h1 : onWentLive emptyStore "B" "blogin" "s1" t0 none "Chess"
      = ⟨[⟨"s1", "B", "blogin", t0, none, none⟩],
         [⟨0, "s1", none, "Chess", t0, none, none⟩], 1, []⟩ := by
    simp [onWentLive, upsertStreamOnline, startSegment, emptyStore]
  have h2 : onCategoryChanged
      (⟨[⟨"s1", "B", "blogin", t0, none, none⟩],
        [⟨0, "s1", none, "Chess", t0, none, none⟩], 1, []⟩ : Store)
      "B" none (some "Poker") (t0 + 600000)
      = ⟨[⟨"s1", "B", "blogin", t0, none, none⟩],
         [⟨0, "s1", none, "Chess", t0, some (t0 + 600000), some 600⟩,
          ⟨1, "s1", none, "Poker", t0 + 600000, none, none⟩], 2, []⟩ := by
    simp [onCategoryChanged, rotateSegment, getActiveStream, getOpenSegment,
      closeOpenSegment, startSegment, filterP, latestBy, nonEmptyStr, harith1]
  have h3 : onWentOffline
      (⟨[⟨"s1", "B", "blogin", t0, none, none⟩],
        [⟨0, "s1", none, "Chess", t0, some (t0 + 600000), some 600⟩,
         ⟨1, "s1", none, "Poker", t0 + 600000, none, none⟩], 2, []⟩ : Store)
      "B" (t0 + 1800000) "event-notified"
      = ⟨[⟨"s1", "B", "blogin", t0, some (t0 + 1800000), some "event-notified"⟩],
         [⟨0, "s1", none, "Chess", t0, some (t0 + 600000), some 600⟩,
          ⟨1, "s1", none, "Poker", t0 + 600000, some (t0 + 1800000), some 1200⟩],
         2, []⟩ := by
    simp [onWentOffline, getActiveStream, getOpenSegment, closeOpenSegment,
      markStreamOffline, filterP, latestBy, harith2]
  rw [h1, h2, h3]

/-- C2 counterexample: for the sequence consisting of one `onCategoryChanged`
whose timestamp (0) precedes the session start (1000), the claim fails: the
stored segments of the session are not contiguous-ordered-nonoverlapping (the
list is not ordered by `startedAt`). -/
theorem c2_counterexample :
    ¬ (contiguousSegs (segmentsOf (applyChanges
          (onWentLive emptyStore "B" "b" "s1" 1000 none "A") "B"
          [(none, some "Bgame", 0)]) "s1")
      ∧ orderedByStart (segmentsOf (applyChanges
          (onWentLive emptyStore "B" "b" "s1" 1000 none "A") "B"
          [(none, some "Bgame", 0)]) "s1")
      ∧ noOverlap (segmentsOf (applyChanges
          (onWentLive emptyStore "B" "b" "s1" 1000 none "A") "B"
          [(none, some "Bgame", 0)]) "s1")) := by
  rintro ⟨-, hord, -⟩
  have hL : segmentsOf (applyChanges
      (onWentLive emptyStore "B" "b" "s1" 1000 none "A") "B"
      [(none, some "Bgame", 0)]) "s1"
      = [⟨0, "s1", none, "A", 1000, some 0, some 0⟩,
         ⟨1, "s1", none, "Bgame", 0, none, none⟩] := by decide
  rw [hL] at hord
  unfold orderedByStart at hord
  have hle := (List.pairwise_cons.mp hord).1 _ (List.mem_singleton_self _)
  exact absurd hle (by decide)

/-- C2 (amended): for a session created by `onWentLive` and every sequence of
`onCategoryChanged` calls whose event times are strictly increasing and later
than the session start, the stored segments of the session are contiguous
(each segment's `endedAt` equals the next segment's `startedAt`), pairwise
non-overlapping in time, and ordered by `startedAt`. -/
theorem c2_segments_contiguous_ordered (b login sid : String) (cid0 : Option String)
    (cn0 : String) (t0 : Int) (evs : List (Option String × Option String × Int))
    (hmono : List.Chain (fun x y => x < y) t0 (evs.map fun e => e.2.2)) :
    contiguousSegs (segmentsOf (applyChanges
      (onWentLive emptyStore b login sid t0 cid0 cn0) b evs) sid)
    ∧ orderedByStart (segmentsOf (applyChanges
      (onWentLive emptyStore b login sid t0 cid0 cn0) b evs) sid)
    ∧ noOverlap (segmentsOf (applyChanges
      (onWentLive emptyStore b login sid t0 cid0 cn0) b evs) sid) := by
  obtain ⟨tfin, invf⟩ := engineInv_applyChanges b ⟨sid, b, login, t0, none, none⟩ evs
    (onWentLive emptyStore b login sid t0 cid0 cn0) t0
    (engineInv_init b login sid cid0 cn0 t0) hmono
  obtain ⟨pre, og, hseg, hopen, hclosed, hchain, hsorted, hle⟩ := invf.shape
  have hseg' : segmentsOf (applyChanges
      (onWentLive emptyStore b login sid t0 cid0 cn0) b evs) sid = pre ++ [og] := hseg
  rw [hseg']
  exact ⟨hchain, hsorted.imp fun h => le_of_lt h,
    noOverlap_of_chain_sorted hchain hsorted⟩

/-- Witness for C2 (amended) at a concrete strictly increasing run. -/
theorem c2_segments_contiguous_ordered_witness :
    List.Chain (fun x y : Int => x < y) 0
      (([(none, some "Poker", 1000)] : List (Option String × Option String × Int)).map
        fun e => e.2.2)
    ∧ (contiguousSegs (segmentsOf (applyChanges
        (onWentLive emptyStore "B" "b" "s1" 0 none "Chess") "B"
        [(none, some "Poker", 1000)]) "s1")
      ∧ orderedByStart (segmentsOf (applyChanges
        (onWentLive emptyStore "B" "b" "s1" 0 none "Chess") "B"
        [(none, some "Poker", 1000)]) "s1")
      ∧ noOverlap (segmentsOf (applyChanges
        (onWentLive emptyStore "B" "b" "s1" 0 none "Chess") "B"
        [(none, some "Poker", 1000)]) "s1")) :=
  ⟨List.Chain.cons (by decide) List.Chain.nil,
   c2_segments_contiguous_ordered "B" "b" "s1" none "Chess" 0
     [(none, some "Poker", 1000)] (List.Chain.cons (by decide) List.Chain.nil)⟩

/-- C4: calling `onWentLive` twice for the same broadcaster and the same
session id on an empty store yields exactly one active session, its
`startedAt` is the minimum of the two supplied start times, and a duplicate
therefore never moves the start time later. -/
theorem c4_idempotent_start (b login sid : String) (t1 t2 : Int)
    (cid1 cid2 : Option String) (cn1 cn2 : String) :
    activeSessions
      (onWentLive (onWentLive emptyStore b login sid t1 cid1 cn1)
        b login sid t2 cid2 cn2) b
      = [⟨sid, b, login, min t1 t2, none, none⟩]
    ∧ min t1 t2 ≤ t1 := by
  refine ⟨?_, min_le_left t1 t2⟩
  have h1 : onWentLive emptyStore b login sid t1 cid1 cn1
      = ⟨[⟨sid, b, login, t1, none, none⟩], [⟨0, sid, cid1, cn1, t1, none, none⟩], 1, []⟩ := by
    simp [onWentLive, upsertStreamOnline, startSegment, emptyStore]
  rw [h1]
  unfold onWentLive
  rw [activeSessions_congr (startSegment_streams _ _ _ _ _) b]
  have h2 : upsertStreamOnline
      (⟨[⟨sid, b, login, t1, none, none⟩],
        [⟨0, sid, cid1, cn1, t1, none, none⟩], 1, []⟩ : Store) sid b login t2
      = ⟨[⟨sid, b, login, min t1 t2, none, none⟩],
         [⟨0, sid, cid1, cn1, t1, none, none⟩], 1, []⟩ := by
    simp [upsertStreamOnline]
  rw [h2]
  simp [activeSessions, filterP]

/-- C8: for a broadcaster with no active session, `onCategoryChanged` and
`onWentOffline` are both no-ops that leave the store completely unchanged. -/
theorem c8_no_session_noop (s : Store) (b : String) (cid : Option String)
    (cn : Option String) (t : Int) (reason : String)
    (h : getActiveStream s b = none) :
    onCategoryChanged s b cid cn t = s ∧ onWentOffline s b t reason = s := by
  unfold onCategoryChanged onWentOffline
  rw [h]
  exact ⟨rfl, rfl⟩

/-- Witness for C8 on the empty store. -/
theorem c8_no_session_noop_witness :
    getActiveStream emptyStore "B" = none
    ∧ (onCategoryChanged emptyStore "B" none (some "Chess") 5 = emptyStore
       ∧ onWentOffline emptyStore "B" 5 "offline_event" = emptyStore) :=
  ⟨rfl, c8_no_session_noop emptyStore "B" none (some "Chess") 5 "offline_event" rfl⟩

/-- C3: for an active session with an open segment, `onWentOffline(b, at,
reason)` marks the session row ended at `at` with the given reason, closes the
open segment at `at`, and stores `durationSeconds =
max 0 (floor((at - startedAt) / 1s))`, which is never negative. -/
theorem c3_offline_closes (s : Store) (b reason : String) (act : StreamRec)
    (og : SegmentRec) (t : Int)
    (hact : getActiveStream s b = some act)
    (hog : getOpenSegment s act.streamId = some og) :
    (∀ r ∈ (onWentOffline s b t reason).streams, r.streamId = act.streamId →
        r.endedAt = some t ∧ r.endedReason = some reason)
    ∧ (∃ g ∈ (onWentOffline s b t reason).segments, g.id = og.id
        ∧ g.startedAt = og.startedAt ∧ g.endedAt = some t
        ∧ g.durationSeconds = some (max 0 ((t - og.startedAt).fdiv 1000)))
    ∧ (0 : Int) ≤ max 0 ((t - og.startedAt).fdiv 1000) := by
  have hoff : onWentOffline s b t reason
      = markStreamOffline (closeOpenSegment s act.streamId t) act.streamId t reason := by
    unfold onWentOffline; rw [hact]
  have hclose : (closeOpenSegment s act.streamId t).segments
      = s.segments.map (closeUpd og t) := by
    unfold closeOpenSegment; rw [hog]; rfl
  refine ⟨?_, ?_, le_max_left _ _⟩
  · intro r hr hrid
    rw [hoff] at hr
    rw [show (markStreamOffline (closeOpenSegment s act.streamId t) act.streamId
        t reason).streams
      = (closeOpenSegment s act.streamId t).streams.map (fun r =>
          if r.streamId = act.streamId then
            { r with endedAt := some t, endedReason := some reason }
          else r) from rfl] at hr
    obtain ⟨a, ha, rfl⟩ := List.mem_map.mp hr
    by_cases hc : a.streamId = act.streamId
    · rw [if_pos hc]
      exact ⟨rfl, rfl⟩
    · rw [if_neg hc] at hrid
      exact absurd hrid hc
  · refine ⟨closeUpd og t og, ?_, ?_⟩
    · rw [hoff]
      rw [show (markStreamOffline (closeOpenSegment s act.streamId t) act.streamId
          t reason).segments = (closeOpenSegment s act.streamId t).segments from rfl,
        hclose]
      exact List.mem_map_of_mem _ (getOpenSegment_spec hog).1
    · simp [closeUpd]

/-- Witness for C3 on a one-session store closed at t = 7000. -/
theorem c3_offline_closes_witness :
    getActiveStream ⟨[⟨"s1", "B", "b", 0, none, none⟩],
        [⟨0, "s1", none, "Chess", 0, none, none⟩], 1, []⟩ "B"
      = some ⟨"s1", "B", "b", 0, none, none⟩
    ∧ getOpenSegment ⟨[⟨"s1", "B", "b", 0, none, none⟩],
        [⟨0, "s1", none, "Chess", 0, none, none⟩], 1, []⟩ "s1"
      = some ⟨0, "s1", none, "Chess", 0, none, none⟩
    ∧ ((∀ r ∈ (onWentOffline ⟨[⟨"s1", "B", "b", 0, none, none⟩],
          [⟨0, "s1", none, "Chess", 0, none, none⟩], 1, []⟩ "B" 7000
          "offline_event").streams, r.streamId = "s1" →
            r.endedAt = some 7000 ∧ r.endedReason = some "offline_event")
        ∧ (∃ g ∈ (onWentOffline ⟨[⟨"s1", "B", "b", 0, none, none⟩],
            [⟨0, "s1", none, "Chess", 0, none, none⟩], 1, []⟩ "B" 7000
            "offline_event").segments, g.id = 0
            ∧ g.startedAt = 0 ∧ g.endedAt = some 7000
            ∧ g.durationSeconds = some (max 0 (((7000 : Int) - 0).fdiv 1000)))
        ∧ (0 : Int) ≤ max 0 (((7000 : Int) - 0).fdiv 1000)) :=
  ⟨by decide, by decide,
   c3_offline_closes ⟨[⟨"s1", "B", "b", 0, none, none⟩],
     [⟨0, "s1", none, "Chess", 0, none, none⟩], 1, []⟩ "B" "offline_event"
     ⟨"s1", "B", "b", 0, none, none⟩ ⟨0, "s1", none, "Chess", 0, none, none⟩ 7000
     (by decide) (by decide)⟩

/-- C5 counterexample: the open segment has category (id NULL, name "Chess");
`rotateSegment` with (id "123", name "Chess") — equal by name — is not a no-op:
it closes the open segment and inserts a new segment. -/
theorem c5_counterexample :
    (getOpenSegment ⟨[⟨"s1", "B", "b", 0, none, none⟩],
        [⟨0, "s1", none, "Chess", 0, none, none⟩], 1, []⟩ "s1").map
        (fun g => g.categoryName) = some "Chess"
    ∧ rotateSegment ⟨[⟨"s1", "B", "b", 0, none, none⟩],
        [⟨0, "s1", none, "Chess", 0, none, none⟩], 1, []⟩ "s1" (some "123") "Chess" 5000
      = ⟨[⟨"s1", "B", "b", 0, none, none⟩],
         [⟨0, "s1", none, "Chess", 0, some 5000, some 5⟩,
          ⟨1, "s1", some "123", "Chess", 5000, none, none⟩], 2, []⟩ := by
  exact ⟨by decide, by decide⟩

/-- C5 (amended): a category change whose category equals the open segment's in
both id and name is a no-op: the store is unchanged. -/
theorem c5_same_category_noop (s : Store) (sid : String) (og : SegmentRec)
    (cid : Option String) (cn : String) (t : Int)
    (hog : getOpenSegment s sid = some og)
    (hname : og.categoryName = cn) (hid : og.categoryId = cid) :
    rotateSegment s sid cid cn t = s := by
  unfold rotateSegment
  rw [hog]
  exact if_pos ⟨hname, hid⟩

/-- Witness for C5 (amended): same id and name leave the store untouched. -/
theorem c5_same_category_noop_witness :
    getOpenSegment ⟨[⟨"s1", "B", "b", 0, none, none⟩],
        [⟨0, "s1", none, "Chess", 0, none, none⟩], 1, []⟩ "s1"
      = some ⟨0, "s1", none, "Chess", 0, none, none⟩
    ∧ rotateSegment ⟨[⟨"s1", "B", "b", 0, none, none⟩],
        [⟨0, "s1", none, "Chess", 0, none, none⟩], 1, []⟩ "s1" none "Chess" 5000
      = ⟨[⟨"s1", "B", "b", 0, none, none⟩],
         [⟨0, "s1", none, "Chess", 0, none, none⟩], 1, []⟩ :=
  ⟨by decide,
   c5_same_category_noop ⟨[⟨"s1", "B", "b", 0, none, none⟩],
     [⟨0, "s1", none, "Chess", 0, none, none⟩], 1, []⟩ "s1"
     ⟨0, "s1", none, "Chess", 0, none, none⟩ none "Chess" 5000 (by decide) rfl rfl⟩

/-- C10: when the supplied end instant precedes the open segment's start, only
the duration is clamped: the stored row keeps `endedAt` at the earlier instant
with `durationSeconds = 0`, so a persisted closed segment can have `endedAt`
strictly before its `startedAt`. -/
theorem c10_clamped_duration (s : Store) (sid : String) (og : SegmentRec) (t : Int)
    (hog : getOpenSegment s sid = some og) (hlt : t < og.startedAt) :
    ∃ g ∈ (closeOpenSegment s sid t).segments, g.id = og.id
      ∧ g.startedAt = og.startedAt ∧ g.endedAt = some t
      ∧ g.durationSeconds = some 0
      ∧ t < g.startedAt := by
  have hclose : (closeOpenSegment s sid t).segments = s.segments.map (closeUpd og t) := by
    unfold closeOpenSegment; rw [hog]; rfl
  have hdur : max 0 ((t - og.startedAt).fdiv 1000) = 0 := by
    rw [Int.fdiv_eq_ediv _ (by norm_num : (0 : Int) ≤ 1000)]
    have h2 : (t - og.startedAt) / 1000 ≤ 0 := by omega
    exact max_eq_left h2
  rw [hclose]
  refine ⟨closeUpd og t og, List.mem_map_of_mem _ (getOpenSegment_spec hog).1, ?_⟩
  simp [closeUpd, hdur, hlt]

/-- Witness for C10: closing at t = -5000 a segment that started at 0. -/
theorem c10_clamped_duration_witness :
    getOpenSegment ⟨[⟨"s1", "B", "b", 0, none, none⟩],
        [⟨0, "s1", none, "Chess", 0, none, none⟩], 1, []⟩ "s1"
      = some ⟨0, "s1", none, "Chess", 0, none, none⟩
    ∧ (-5000 : Int) < (0 : Int)
    ∧ (∃ g ∈ (closeOpenSegment ⟨[⟨"s1", "B", "b", 0, none, none⟩],
        [⟨0, "s1", none, "Chess", 0, none, none⟩], 1, []⟩ "s1" (-5000)).segments,
        g.id = 0 ∧ g.startedAt = 0 ∧ g.endedAt = some (-5000)
        ∧ g.durationSeconds = some 0 ∧ (-5000 : Int) < g.startedAt) :=
  ⟨by decide, by decide,
   c10_clamped_duration ⟨[⟨"s1", "B", "b", 0, none, none⟩],
     [⟨0, "s1", none, "Chess", 0, none, none⟩], 1, []⟩ "s1"
     ⟨0, "s1", none, "Chess", 0, none, none⟩ (-5000) (by decide) (by decide)⟩


/-- C7 counterexample: upstream reports live with stream id "X", but "X" is
already stored as an ended stream; `reconcile` then creates no session — the
upsert leaves `ended_at` set, so afterwards there is still no active session
and the stored stream row is unchanged. -/
theorem c7_counterexample :
    activeSessions (reconcile
        ⟨[⟨"X", "B", "b", 0, some 100, some "offline_event"⟩], [], 0, []⟩
        "B" "b" true (some "X") (some 200) none none 300) "B" = []
    ∧ (reconcile ⟨[⟨"X", "B", "b", 0, some 100, some "offline_event"⟩], [], 0, []⟩
        "B" "b" true (some "X") (some 200) none none 300).streams
      = [⟨"X", "B", "b", 0, some 100, some "offline_event"⟩] := by
  exact ⟨by decide, by decide⟩

/-- C7 (amended): when upstream reports live, the broadcaster has no local
active session, and the upstream session id is not already stored (no stream
row and no segment row carries it), `reconcile` creates exactly one session —
starting at the upstream-reported start, or `now` when unknown — and exactly
one open segment whose category is the upstream-reported one, with the
"Unknown" sentinel name when upstream omits it. -/
theorem c7_reconcile_online (s : Store) (b login sid : String) (st : Option Int)
    (gid gname : Option String) (now : Int)
    (hact : getActiveStream s b = none)
    (hfresh : ∀ r ∈ s.streams, r.streamId ≠ sid)
    (hnoseg : ∀ g ∈ s.segments, g.streamId ≠ sid) :
    activeSessions (reconcile s b login true (some sid) st gid gname now) b
      = [⟨sid, b, login, st.getD now, none, none⟩]
    ∧ (reconcile s b login true (some sid) st gid gname now).streams.length
      = s.streams.length + 1
    ∧ segmentsOf (reconcile s b login true (some sid) st gid gname now) sid
      = [⟨s.nextSegId, sid, nonEmptyStr gid, (nonEmptyStr gname).getD "Unknown",
          st.getD now, none, none⟩]
    ∧ openSegmentsOf (reconcile s b login true (some sid) st gid gname now) sid
      = segmentsOf (reconcile s b login true (some sid) st gid gname now) sid := by
  have hrec : reconcile s b login true (some sid) st gid gname now
      = startSegment (upsertStreamOnline s sid b login (st.getD now)) sid
          (nonEmptyStr gid) ((nonEmptyStr gname).getD "Unknown") (st.getD now) := by
    unfold reconcile; rw [hact]
    rfl
  have hupsert : upsertStreamOnline s sid b login (st.getD now)
      = { s with streams := s.streams ++ [⟨sid, b, login, st.getD now, none, none⟩] } := by
    unfold upsertStreamOnline
    rw [if_neg (by rintro ⟨r, hr, hrid⟩; exact hfresh r hr hrid)]
  have hstart : startSegment { s with
        streams := s.streams ++ [⟨sid, b, login, st.getD now, none, none⟩] } sid
        (nonEmptyStr gid) ((nonEmptyStr gname).getD "Unknown") (st.getD now)
      = { s with
          streams := s.streams ++ [⟨sid, b, login, st.getD now, none, none⟩],
          segments := s.segments ++ [⟨s.nextSegId, sid, nonEmptyStr gid,
            (nonEmptyStr gname).getD "Unknown", st.getD now, none, none⟩],
          nextSegId := s.nextSegId + 1 } := by
    unfold startSegment
    rw [if_neg (by rintro ⟨g, hg, hgid, -⟩; exact hnoseg g hg hgid)]
  rw [hrec, hupsert, hstart]
  have hactive : filterP (fun r : StreamRec => r.broadcasterId = b ∧ r.endedAt = none)
      s.streams = [] := by
    unfold getActiveStream at hact
    exact latestBy_eq_none.mp hact
  refine ⟨?_, ?_, ?_, ?_⟩
  · show filterP (fun r : StreamRec => r.broadcasterId = b ∧ r.endedAt = none)
      (s.streams ++ [⟨sid, b, login, st.getD now, none, none⟩])
      = [⟨sid, b, login, st.getD now, none, none⟩]
    rw [filterP_append, hactive]
    simp [filterP]
  · show (s.streams ++ [(⟨sid, b, login, st.getD now, none, none⟩ : StreamRec)]).length
      = s.streams.length + 1
    simp
  · show filterP (fun g : SegmentRec => g.streamId = sid)
      (s.segments ++ [⟨s.nextSegId, sid, nonEmptyStr gid,
        (nonEmptyStr gname).getD "Unknown", st.getD now, none, none⟩])
      = [⟨s.nextSegId, sid, nonEmptyStr gid, (nonEmptyStr gname).getD "Unknown",
          st.getD now, none, none⟩]
    rw [filterP_append, filterP_eq_nil (fun g hg hp => hnoseg g hg hp)]
    simp [filterP]
  · show filterP (fun g : SegmentRec => g.streamId = sid ∧ g.endedAt = none)
      (s.segments ++ [⟨s.nextSegId, sid, nonEmptyStr gid,
        (nonEmptyStr gname).getD "Unknown", st.getD now, none, none⟩])
      = filterP (fun g : SegmentRec => g.streamId = sid)
        (s.segments ++ [⟨s.nextSegId, sid, nonEmptyStr gid,
          (nonEmptyStr gname).getD "Unknown", st.getD now, none, none⟩])
    rw [filterP_append, filterP_append,
      filterP_eq_nil (fun g hg hp => hnoseg g hg hp.1),
      filterP_eq_nil (fun g hg hp => hnoseg g hg hp)]
    simp [filterP]

/-- Witness for C7 (amended): empty store, upstream live with id "X" started
at 200, category omitted (the "Unknown" sentinel case). -/
theorem c7_reconcile_online_witness :
    getActiveStream emptyStore "B" = none
    ∧ (activeSessions (reconcile emptyStore "B" "b" true (some "X") (some 200)
          none none 300) "B" = [⟨"X", "B", "b", 200, none, none⟩]
      ∧ (reconcile emptyStore "B" "b" true (some "X") (some 200)
          none none 300).streams.length = emptyStore.streams.length + 1
      ∧ segmentsOf (reconcile emptyStore "B" "b" true (some "X") (some 200)
          none none 300) "X" = [⟨0, "X", none, "Unknown", 200, none, none⟩]
      ∧ openSegmentsOf (reconcile emptyStore "B" "b" true (some "X") (some 200)
          none none 300) "X"
        = segmentsOf (reconcile emptyStore "B" "b" true (some "X") (some 200)
            none none 300) "X") :=
  ⟨rfl, c7_reconcile_online emptyStore "B" "b" "X" (some 200) none none 300 rfl
    (by intro r hr; simp [emptyStore] at hr) (by intro g hg; simp [emptyStore] at hg)⟩

/-- C9 (code bug): the global totals query groups segments by the pair
(lower(name), name), so two segment spellings differing only in case produce
two output rows, and each row separately adds the full baseline of that
case-insensitive key: with closed segments "Chess" (600 s) and "chess" (400 s)
and one baseline row ("chess", 1 h), the output is two rows of 4200 s and
4000 s instead of one merged row of 4600 s. -/
theorem c9_case_insensitive_merge_bug :
    getGlobalGameTotals ⟨[],
      [⟨0, "s1", none, "Chess", 0, some 600000, some 600⟩,
       ⟨1, "s1", none, "chess", 600000, some 1000000, some 400⟩], 2,
      [⟨0, "chess", some 1, some 0⟩]⟩
    = [⟨"Chess", 4200, 600000⟩, ⟨"chess", 4000, 1000000⟩] := by
  decide


theorem chainFrom_cons {t tEnd : Int} {g : SegmentRec} {gs : List SegmentRec}
    (h : chainFrom t (g :: gs) tEnd) :
    g.startedAt = t ∧ 1000 ∣ t ∧ ∃ e, g.endedAt = some e ∧ t ≤ e ∧ 1000 ∣ e
      ∧ g.durationSeconds = some ((e - t).fdiv 1000) ∧ chainFrom e gs tEnd := by
  rw [chainFrom] at h
  refine ⟨h.1, h.2.1, ?_⟩
  have hm := h.2.2
  cases he : g.endedAt with
  | none => rw [he] at hm; exact hm.elim
  | some e => rw [he] at hm; exact ⟨e, rfl, hm⟩

theorem chainFrom_closed : ∀ (L : List SegmentRec) (t tEnd : Int), chainFrom t L tEnd →
    ∀ g ∈ L, g.endedAt ≠ none := by
  intro L
  induction L with
  | nil => intro t tEnd h g hg; simp at hg
  | cons x xs ih =>
    intro t tEnd h g hg
    obtain ⟨-, -, e, he, -, -, -, hrest⟩ := chainFrom_cons h
    rcases List.mem_cons.mp hg with rfl | hgs
    · rw [he]; simp
    · exact ih e tEnd hrest g hgs

theorem chainFrom_sum : ∀ (L : List SegmentRec) (t tEnd : Int), chainFrom t L tEnd →
    sumDur L = (tEnd - t).fdiv 1000 := by
  intro L
  induction L with
  | nil =>
    intro t tEnd h
    rw [chainFrom] at h
    subst h
    simp [sumDur, Int.sub_self, Int.zero_fdiv]
  | cons g gs ih =>
    intro t tEnd h
    obtain ⟨hst, hdvd, e, he, hte, hedvd, hdur, hrest⟩ := chainFrom_cons h
    have hsum := ih e tEnd hrest
    unfold sumDur at hsum ⊢
    rw [List.filterMap_cons, hdur, List.sum_cons, hsum]
    rw [Int.fdiv_eq_ediv _ (by norm_num : (0 : Int) ≤ 1000),
      Int.fdiv_eq_ediv _ (by norm_num : (0 : Int) ≤ 1000),
      Int.fdiv_eq_ediv _ (by norm_num : (0 : Int) ≤ 1000)]
    omega

/-- C6 counterexample: an engine-produced session (live at t=0, category change
at t=1500, reconciled offline at t=3000) is closed with reason
"recovered_offline", but the sum of its segment durations is 2 s while the
time between its start and the reconciliation instant is 3 s (3000 ms): each
segment's duration is floored separately, so the sum undercounts. -/
theorem c6_counterexample :
    (reconcile (onCategoryChanged (onWentLive emptyStore "B" "b" "s1" 0 none "Chess")
        "B" none (some "Poker") 1500) "B" "b" false none none none none 3000).streams
      = [⟨"s1", "B", "b", 0, some 3000, some "recovered_offline"⟩]
    ∧ sumDur (segmentsOf (reconcile (onCategoryChanged
        (onWentLive emptyStore "B" "b" "s1" 0 none "Chess")
        "B" none (some "Poker") 1500) "B" "b" false none none none none 3000) "s1") = 2
    ∧ (2 : Int) ≠ ((3000 : Int) - 0).fdiv 1000
    ∧ (2 : Int) * 1000 ≠ (3000 : Int) - 0 := by
  exact ⟨by decide, by decide, by decide, by decide⟩

/-- C6 (amended): for an active session whose closed segments form a contiguous
run from the session start with the stored floored durations and whole-second
boundaries, and whose open segment starts no later than the reconciliation
instant, `reconcile` with upstream not live closes the session with reason
"recovered_offline" (the spec's `recovered-by-reconciliation`) and the sum of
the segment durations equals the floored number of seconds between the
session's start and the reconciliation instant. (Unrestricted, the sum can
undercount: each boundary is floored separately; see the counterexample.) -/
theorem c6_reconcile_offline (s : Store) (b login : String) (act : StreamRec)
    (pre : List SegmentRec) (og : SegmentRec) (now : Int)
    (hact : getActiveStream s b = some act)
    (hseg : segmentsOf s act.streamId = pre ++ [og])
    (hopen : og.endedAt = none)
    (hids : s.segments.Pairwise fun a b => a.id ≠ b.id)
    (hchain : chainFrom act.startedAt pre og.startedAt)
    (hdvd0 : 1000 ∣ act.startedAt) (hdvdog : 1000 ∣ og.startedAt)
    (hnow : og.startedAt ≤ now) :
    (∀ r ∈ (reconcile s b login false none none none none now).streams,
        r.streamId = act.streamId →
          r.endedAt = some now ∧ r.endedReason = some "recovered_offline")
    ∧ sumDur (segmentsOf (reconcile s b login false none none none none now)
        act.streamId)
      = (now - act.startedAt).fdiv 1000 := by
  have hclosed : ∀ g ∈ pre, g.endedAt ≠ none :=
    chainFrom_closed pre act.startedAt og.startedAt hchain
  have hrec : reconcile s b login false none none none none now
      = markStreamOffline (closeOpenSegment s act.streamId now) act.streamId now
          "recovered_offline" := by
    unfold reconcile; rw [hact]
  obtain ⟨hmap, hsegOf⟩ :=
    closeOpenSegment_shape s act.streamId pre og now hseg hopen hclosed hids
  rw [hrec]
  constructor
  · intro r hr hrid
    rw [show (markStreamOffline (closeOpenSegment s act.streamId now) act.streamId now
        "recovered_offline").streams
      = (closeOpenSegment s act.streamId now).streams.map (fun r =>
          if r.streamId = act.streamId then
            { r with endedAt := some now, endedReason := some "recovered_offline" }
          else r) from rfl] at hr
    obtain ⟨a, ha, rfl⟩ := List.mem_map.mp hr
    by_cases hc : a.streamId = act.streamId
    · rw [if_pos hc]
      exact ⟨rfl, rfl⟩
    · rw [if_neg hc] at hrid
      exact absurd hrid hc
  · rw [show segmentsOf (markStreamOffline (closeOpenSegment s act.streamId now)
        act.streamId now "recovered_offline") act.streamId
      = segmentsOf (closeOpenSegment s act.streamId now) act.streamId from rfl, hsegOf]
    have hsplit : sumDur (pre ++ [closedAt og now])
        = sumDur pre + sumDur [closedAt og now] := by
      unfold sumDur
      rw [List.filterMap_append, List.sum_append]
    have hd : max 0 ((now - og.startedAt).fdiv 1000) = (now - og.startedAt).fdiv 1000 := by
      rw [Int.fdiv_eq_ediv _ (by norm_num : (0 : Int) ≤ 1000)]
      have h2 : 0 ≤ (now - og.startedAt) / 1000 := by omega
      exact max_eq_right h2
    have hdurog : sumDur [closedAt og now] = (now - og.startedAt).fdiv 1000 := by
      simp [sumDur, closedAt, hd]
    rw [hsplit, chainFrom_sum pre act.startedAt og.startedAt hchain, hdurog]
    rw [Int.fdiv_eq_ediv _ (by norm_num : (0 : Int) ≤ 1000),
      Int.fdiv_eq_ediv _ (by norm_num : (0 : Int) ≤ 1000),
      Int.fdiv_eq_ediv _ (by norm_num : (0 : Int) ≤ 1000)]
    omega

/-- Witness for C6 (amended): live at 0, Chess closed at 1000 (1 s), Poker open
from 1000, reconciled offline at 3000; the sum of durations is 3 s. -/
theorem c6_reconcile_offline_witness :
    getActiveStream ⟨[⟨"s1", "B", "b", 0, none, none⟩],
        [⟨0, "s1", none, "Chess", 0, some 1000, some 1⟩,
         ⟨1, "s1", none, "Poker", 1000, none, none⟩], 2, []⟩ "B"
      = some ⟨"s1", "B", "b", 0, none, none⟩
    ∧ chainFrom 0 [⟨0, "s1", none, "Chess", 0, some 1000, some 1⟩] 1000
    ∧ ((∀ r ∈ (reconcile ⟨[⟨"s1", "B", "b", 0, none, none⟩],
          [⟨0, "s1", none, "Chess", 0, some 1000, some 1⟩,
           ⟨1, "s1", none, "Poker", 1000, none, none⟩], 2, []⟩
          "B" "b" false none none none none 3000).streams, r.streamId = "s1" →
            r.endedAt = some 3000 ∧ r.endedReason = some "recovered_offline")
      ∧ sumDur (segmentsOf (reconcile ⟨[⟨"s1", "B", "b", 0, none, none⟩],
          [⟨0, "s1", none, "Chess", 0, some 1000, some 1⟩,
           ⟨1, "s1", none, "Poker", 1000, none, none⟩], 2, []⟩
          "B" "b" false none none none none 3000) "s1")
        = ((3000 : Int) - 0).fdiv 1000) := by
  have hch : chainFrom 0 [⟨0, "s1", none, "Chess", 0, some 1000, some 1⟩] 1000 := by
    rw [chainFrom]
    refine ⟨rfl, ⟨0, by decide⟩, by decide, ⟨1, by decide⟩, by decide, rfl⟩
  refine ⟨by decide, hch, ?_⟩
  exact c6_reconcile_offline ⟨[⟨"s1", "B", "b", 0, none, none⟩],
      [⟨0, "s1", none, "Chess", 0, some 1000, some 1⟩,
       ⟨1, "s1", none, "Poker", 1000, none, none⟩], 2, []⟩ "B" "b"
    ⟨"s1", "B", "b", 0, none, none⟩ [⟨0, "s1", none, "Chess", 0, some 1000, some 1⟩]
    ⟨1, "s1", none, "Poker", 1000, none, none⟩ 3000
    (by decide) (by decide) rfl
    (by refine List.Pairwise.cons ?_ (List.pairwise_singleton _ _)
        intro x hx
        rw [List.mem_singleton.mp hx]
        decide)
    hch (⟨0, by decide⟩) (⟨1, by decide⟩) (by decide)

end CassTracker
